import Mathlib

set_option maxRecDepth 100000

/-!
Verification of the AugmentedClaude repository scripts.

`ChartScript` embeds `src/chart_script.py`: the fixed node list, the
`create_hierarchical_layout` function (positions dictionary modelled as an
association list over `String` keys with rational coordinates; the unhandled
Python lookup faults — `KeyError`, `IndexError`, `ValueError` — surface as
`Option.none`), and the edge-drawing loop.

`Script` embeds `src/script.py`: the fixed `systems_analysis` mapping and the
print loop, with standard output modelled as an accumulated `String`.
-/

namespace ChartScript

/-- A node record of the fixed dataset in `chart_script.py` (`data["nodes"]`).
`parent` is `none` when the Python dict has no `"parent"` key. -/
structure Node where
  id : String
  label : String
  level : Int
  category : String
  parent : Option String := none
deriving DecidableEq, Repr

/-- `n` with its parent field replaced by `q` (all other fields kept). -/
def withParent (n : Node) (q : Option String) : Node :=
  ⟨n.id, n.label, n.level, n.category, q⟩

/-- The positions dictionary: an association list from node id to an
`(x, y)` pair of rationals, in insertion order (Python dict semantics). -/
abbrev Positions := List (String × ℚ × ℚ)

/-- Python dict assignment `positions[k] = v`: replace the entry in place when
the key is present, otherwise append it. -/
def posSet (ps : Positions) (k : String) (v : ℚ × ℚ) : Positions :=
  if ps.any (fun e => e.1 == k) then
    ps.map (fun e => if e.1 == k then (k, v) else e)
  else
    ps ++ [(k, v)]

/-- Python dict lookup `positions[k]`, `none` standing for `KeyError`. -/
def posGet (ps : Positions) (k : String) : Option (ℚ × ℚ) :=
  (ps.find? (fun e => e.1 == k)).map Prod.snd

/-- The spacing constant for level-1 nodes (`level1_spacing = 4.5`). -/
def level1_spacing : ℚ := 9 / 2

/-- One iteration of the level-2 / level-3 placement loops of
`create_hierarchical_layout` (the two loop bodies are identical up to the
sibling spacing and the vertical step, passed here as parameters:
`sibling_spacing = 1.8`, step `3.5` at level 2; `sibling_spacing = 1.5`,
step `3.0` at level 3).  `none` models the unhandled faults: `KeyError` on a
missing `"parent"` key, `KeyError` on `positions[parent_id]`, and
`ValueError` on `siblings.index(node)`. -/
def placeChild (sibling_spacing y_step : ℚ) (levelNodes : List Node)
    (ps : Positions) (node : Node) : Option Positions := do
  let parent_id ← node.parent
  let parent_pos ← posGet ps parent_id
  let siblings := levelNodes.filter (fun n => n.parent == some parent_id)
  let sibling_index ← siblings.findIdx? (fun n => n == node)
  let x_offset : ℚ :=
    if siblings.length == 1 then 0
    else -((siblings.length : ℚ) - 1) * sibling_spacing / 2
      + (sibling_index : ℚ) * sibling_spacing
  pure (posSet ps node.id (parent_pos.1 + x_offset, parent_pos.2 - y_step))

/-- The first half of `create_hierarchical_layout` (lines 52-66): the root
node is the first node of level 0 (`IndexError`, i.e. `none`, when there is
none) and is placed at the origin; the level-1 nodes are then spread from
`start_x` by `level1_spacing` at `y = -3.5`, in enumeration order. -/
def layout_root_level1 (nodes : List Node) : Option Positions := do
  let root_node ← (nodes.filter (fun n => n.level == 0)).head?
  let positions := posSet [] root_node.id (0, 0)
  let level1_nodes := nodes.filter (fun n => n.level == 1)
  let start_x : ℚ := -((level1_nodes.length : ℚ) - 1) * level1_spacing / 2
  pure (level1_nodes.enum.foldl
    (fun ps p => posSet ps p.2.id (start_x + (p.1 : ℚ) * level1_spacing, -(7 / 2)))
    positions)

/-- `create_hierarchical_layout` from `chart_script.py`: the root/level-1
placement above followed by the level-2 and level-3 sibling loops. -/
def create_hierarchical_layout (nodes : List Node) : Option Positions := do
  let positions ← layout_root_level1 nodes
  let level2_nodes := nodes.filter (fun n => n.level == 2)
  let positions ← level2_nodes.foldlM (placeChild (9 / 5) (7 / 2) level2_nodes) positions
  let level3_nodes := nodes.filter (fun n => n.level == 3)
  let positions ← level3_nodes.foldlM (placeChild (3 / 2) 3 level3_nodes) positions
  pure positions

/-- The fixed node list `data["nodes"]` of `chart_script.py`. -/
def nodes : List Node := [
  ⟨"project", "project/", 0, "root", none⟩,
  ⟨"claude", ".claude/", 1, "config", some "project"⟩,
  ⟨"workflows", "workflows/", 1, "process", some "project"⟩,
  ⟨"commands", "commands/", 1, "actions", some "project"⟩,
  ⟨"patterns", "patterns/", 1, "templates", some "project"⟩,
  ⟨"memory", "memory/", 1, "context", some "project"⟩,
  ⟨"shared", "shared/", 1, "utilities", some "project"⟩,
  ⟨"specialists", "specialists/", 2, "config", some "claude"⟩,
  ⟨"cognitive", "cognitive/", 3, "config", some "specialists"⟩,
  ⟨"technical", "technical/", 3, "config", some "specialists"⟩,
  ⟨"domain", "domain/", 3, "config", some "specialists"⟩,
  ⟨"orchestration_spec", "orchestration/", 3, "config", some "specialists"⟩,
  ⟨"development", "development/", 2, "process", some "workflows"⟩,
  ⟨"analysis", "analysis/", 2, "process", some "workflows"⟩,
  ⟨"operations", "operations/", 2, "process", some "workflows"⟩,
  ⟨"core", "core/", 2, "actions", some "commands"⟩,
  ⟨"specialized", "specialized/", 2, "actions", some "commands"⟩,
  ⟨"orchestration_cmd", "orchestration/", 2, "actions", some "commands"⟩,
  ⟨"architectural", "architectural/", 2, "templates", some "patterns"⟩,
  ⟨"development_pat", "development/", 2, "templates", some "patterns"⟩,
  ⟨"operational", "operational/", 2, "templates", some "patterns"⟩,
  ⟨"context", "context/", 2, "context", some "memory"⟩,
  ⟨"sessions", "sessions/", 2, "context", some "memory"⟩,
  ⟨"knowledge", "knowledge/", 2, "context", some "memory"⟩,
  ⟨"mcp-integration", "mcp-integration/", 2, "utilities", some "shared"⟩,
  ⟨"templates", "templates/", 2, "utilities", some "shared"⟩,
  ⟨"utilities", "utilities/", 2, "utilities", some "shared"⟩]

/-- `node_positions = create_hierarchical_layout(nodes)`; on the fixed list
the computation succeeds, so the default is never taken. -/
def node_positions : Positions := (create_hierarchical_layout nodes).getD []

/-- The x coordinate computed for a node id on the fixed list (`0` as a
placeholder when the id is unpositioned — never the case on `nodes`). -/
def xOf (s : String) : ℚ := ((posGet node_positions s).getD (0, 0)).1

/-- The y coordinate computed for a node id on the fixed list. -/
def yOf (s : String) : ℚ := ((posGet node_positions s).getD (0, 0)).2

/-- One `go.Scatter` line trace of the edge-drawing loop: the `x=[...]` and
`y=[...]` lists passed to `fig.add_trace`. -/
structure Trace where
  x : List ℚ
  y : List ℚ
deriving DecidableEq, Repr

/-- The edge-drawing loop of `chart_script.py` (lines 120-134): for each node
that carries a `parent` field, one line trace from the parent's position to
the child's position is appended to the figure.  The two dictionary lookups
are fallible (`KeyError` as `none`). -/
def line_traces (ns : List Node) (ps : Positions) : Option (List Trace) :=
  ns.foldlM
    (fun acc node =>
      match node.parent with
      | none => pure acc
      | some parent_id => do
          let child_pos ← posGet ps node.id
          let parent_pos ← posGet ps parent_id
          pure (acc ++ [⟨[parent_pos.1, child_pos.1], [parent_pos.2, child_pos.2]⟩]))
    []

/-- The line traces produced on the fixed data (default never taken). -/
def edge_traces : List Trace := (line_traces nodes node_positions).getD []

/-- The sibling group of a node on the fixed list: the nodes of the same
level that name the same parent id `p`. -/
def siblingsOf (n : Node) (p : String) : List Node :=
  nodes.filter (fun m => m.level == n.level && m.parent == some p)

/-- A two-node list whose level-1 node names a parent id (`"ghost"`) that is
absent from the node set. -/
def dangling_level1 : List Node :=
  [⟨"project", "project/", 0, "root", none⟩,
   ⟨"claude", ".claude/", 1, "config", some "ghost"⟩]

/-- The same two-node list with the level-1 node's real parent. -/
def resolved_level1 : List Node :=
  [⟨"project", "project/", 0, "root", none⟩,
   ⟨"claude", ".claude/", 1, "config", some "project"⟩]

/-- A two-node list whose level-2 node names a parent id absent from the
node set. -/
def dangling_level2 : List Node :=
  [⟨"project", "project/", 0, "root", none⟩,
   ⟨"specialists", "specialists/", 2, "config", some "ghost"⟩]

/-- A two-node list containing a node of level 7, which no placement phase
of the layout function looks at. -/
def out_of_range_example : List Node :=
  [⟨"project", "project/", 0, "root", none⟩,
   ⟨"deep", "deep/", 7, "config", some "project"⟩]

/-- All keys of the positions dictionary satisfy `Q`. -/
def keyInv (Q : String → Prop) (ps : Positions) : Prop := ∀ e ∈ ps, Q e.1

/-- A node whose level the layout function positions: 0, 1, 2 or 3. -/
def levelled (n : Node) : Bool :=
  n.level == 0 || n.level == 1 || n.level == 2 || n.level == 3

end ChartScript

namespace Script

/-- One entry of the `systems_analysis` dictionary in `script.py`: the key
and the two values the print loop reads (`details["strengths"]` and
`details["structure"]["organization"]`; the other `structure` fields are
never read by the loop and are omitted). -/
structure SystemEntry where
  name : String
  strengths : List String
  organization : String
deriving DecidableEq, Repr

/-- The fixed `systems_analysis` mapping of `script.py`, in its (insertion)
iteration order. -/
def systems_analysis : List SystemEntry := [
  ⟨"claude_flow",
   ["17 specialized SPARC development modes",
    "Multi-agent orchestration with BatchTool",
    "Memory sharing and coordination",
    "Command-based interface with clear workflows",
    "Swarm mode for parallel execution"],
   "Command-driven with mode specialization"⟩,
  ⟨"superclaude",
   ["9 cognitive personas as universal flags",
    "19 specialized commands covering full dev lifecycle",
    "Token optimization with @include template system",
    "Evidence-based methodology",
    "Modular configuration with shared patterns"],
   "Persona-driven with flag inheritance"⟩,
  ⟨"best_agents",
   ["Role-based specialization (CrewAI)",
    "Task delegation and collaboration",
    "State management and memory",
    "Flexible orchestration patterns",
    "Multi-framework integration"],
   "Hierarchical with delegation"⟩]

/-- Python `print(s)`: append `s` and a newline to the accumulated standard
output. -/
def pyPrint (out s : String) : String := out ++ s ++ "\n"

/-- The standard-output text the print loop must produce, written out line by
line (each block: one empty line, one upper-cased header line, the
`Strengths:` label, one bullet line per strength in list order, one
organization line; blocks in the mapping's iteration order). -/
def expected_output : String :=
  "\nCLAUDE_FLOW ANALYSIS:\n" ++
  "Strengths:\n" ++
  "  â€¢ 17 specialized SPARC development modes\n" ++
  "  â€¢ Multi-agent orchestration with BatchTool\n" ++
  "  â€¢ Memory sharing and coordination\n" ++
  "  â€¢ Command-based interface with clear workflows\n" ++
  "  â€¢ Swarm mode for parallel execution\n" ++
  "Organization: Command-driven with mode specialization\n" ++
  "\nSUPERCLAUDE ANALYSIS:\n" ++
  "Strengths:\n" ++
  "  â€¢ 9 cognitive personas as universal flags\n" ++
  "  â€¢ 19 specialized commands covering full dev lifecycle\n" ++
  "  â€¢ Token optimization with @include template system\n" ++
  "  â€¢ Evidence-based methodology\n" ++
  "  â€¢ Modular configuration with shared patterns\n" ++
  "Organization: Persona-driven with flag inheritance\n" ++
  "\nBEST_AGENTS ANALYSIS:\n" ++
  "Strengths:\n" ++
  "  â€¢ Role-based specialization (CrewAI)\n" ++
  "  â€¢ Task delegation and collaboration\n" ++
  "  â€¢ State management and memory\n" ++
  "  â€¢ Flexible orchestration patterns\n" ++
  "  â€¢ Multi-framework integration\n" ++
  "Organization: Hierarchical with delegation\n"

/-- The print loop of `script.py` (lines 49-54), modelling standard output as
the accumulated string.  The first `print` of each block starts with an
embedded newline, so each block opens with one empty line. -/
def print_analysis : String :=
  systems_analysis.foldl
    (fun out details =>
      let out := pyPrint out ("\n" ++ details.name.toUpper ++ " ANALYSIS:")
      let out := pyPrint out "Strengths:"
      let out := details.strengths.foldl (fun out s => pyPrint out ("  â€¢ " ++ s)) out
      pyPrint out ("Organization: " ++ details.organization))
    ""

end Script

namespace ChartScript

theorem find?_append_single_ne {k k' : String} {v : ℚ × ℚ} (h : k' ≠ k) :
    ∀ t : Positions,
      List.find? (fun e => e.1 == k') (t ++ [(k, v)])
        = List.find? (fun e => e.1 == k') t := by
  intro t
  induction t with
  | nil =>
    have hk : (k == k') = false := beq_eq_false_iff_ne.mpr fun hk => h hk.symm
    simp [List.find?_cons, hk]
  | cons e t ih =>
    by_cases he : (e.1 == k') = true
    · simp [List.cons_append, List.find?_cons, he]
    · simp only [List.cons_append, List.find?_cons, eq_false_of_ne_true he]
      exact ih

theorem find?_map_replace_ne {k k' : String} {v : ℚ × ℚ} (h : k' ≠ k) :
    ∀ t : Positions,
      List.find? (fun e => e.1 == k')
          (t.map (fun e => if e.1 == k then (k, v) else e))
        = List.find? (fun e => e.1 == k') t := by
  intro t
  induction t with
  | nil => rfl
  | cons e t ih =>
    simp only [List.map_cons]
    by_cases hek : (e.1 == k) = true
    · have he' : ((k, v).1 == k') = false :=
        beq_eq_false_iff_ne.mpr fun hk => h hk.symm
      have he'' : (e.1 == k') = false := by
        rw [show e.1 = k from beq_iff_eq.mp hek]
        exact beq_eq_false_iff_ne.mpr fun hk => h hk.symm
      rw [if_pos hek]
      simp only [List.find?_cons, he', he'']
      exact ih
    · rw [if_neg hek]
      by_cases he : (e.1 == k') = true
      · simp [List.find?_cons, he]
      · simp only [List.find?_cons, eq_false_of_ne_true he]
        exact ih

theorem posGet_posSet_self (ps : Positions) (k : String) (v : ℚ × ℚ) :
    posGet (posSet ps k v) k = some v := by
  unfold posSet posGet
  split
  case isTrue h =>
    induction ps with
    | nil => simp at h
    | cons e t ih =>
      simp only [List.map_cons]
      by_cases he : (e.1 == k) = true
      · rw [if_pos he]
        simp [List.find?_cons]
      · rw [if_neg he]
        simp only [List.find?_cons, eq_false_of_ne_true he]
        exact ih (by simp_all [List.any_cons])
  case isFalse h =>
    induction ps with
    | nil => simp [List.find?_cons]
    | cons e t ih =>
      have he : (e.1 == k) = false := by
        simp only [List.any_cons, Bool.or_eq_true, not_or] at h
        simpa using h.1
      simp only [List.cons_append, List.find?_cons, he]
      exact ih (by simp_all [List.any_cons])

theorem posGet_posSet_ne (ps : Positions) (k k' : String) (v : ℚ × ℚ) (h : k' ≠ k) :
    posGet (posSet ps k v) k' = posGet ps k' := by
  unfold posSet posGet
  split
  · rw [find?_map_replace_ne h]
  · rw [find?_append_single_ne h]

theorem posGet_eq_none_of (ps : Positions) (k : String)
    (h : ∀ e ∈ ps, e.1 ≠ k) : posGet ps k = none := by
  unfold posGet
  rw [List.find?_eq_none.mpr]
  · rfl
  · intro e he
    simpa using h e he

theorem keyInv_posSet {Q : String → Prop} {ps : Positions} {k : String}
    {v : ℚ × ℚ} (h : keyInv Q ps) (hk : Q k) : keyInv Q (posSet ps k v) := by
  unfold posSet
  split
  · intro e he
    rcases List.mem_map.1 he with ⟨a, ha, rfl⟩
    split
    · exact hk
    · exact h a ha
  · intro e he
    rcases List.mem_append.1 he with h1 | h2
    · exact h e h1
    · rw [List.mem_singleton.1 h2]
      exact hk

theorem keyInv_foldl_posSet {α : Type} {Q : String → Prop}
    (key : α → String) (F : α → ℚ × ℚ) :
    ∀ (l : List α) (ps : Positions), keyInv Q ps → (∀ a ∈ l, Q (key a)) →
      keyInv Q (l.foldl (fun ps a => posSet ps (key a) (F a)) ps) := by
  intro l
  induction l with
  | nil => exact fun ps h _ => h
  | cons a t ih =>
    intro ps h hl
    simp only [List.foldl_cons]
    exact ih _ (keyInv_posSet h (hl a (List.mem_cons_self a t)))
      fun b hb => hl b (List.mem_cons_of_mem a hb)

theorem placeChild_some {s y : ℚ} {lvl : List Node} {ps ps' : Positions}
    {node : Node} (h : placeChild s y lvl ps node = some ps') :
    ∃ v : ℚ × ℚ, ps' = posSet ps node.id v := by
  unfold placeChild at h
  cases hp : node.parent with
  | none => rw [hp] at h; simp at h
  | some pid =>
    rw [hp] at h
    simp only [Option.bind_eq_bind, Option.some_bind] at h
    cases hg : posGet ps pid with
    | none => rw [hg] at h; simp at h
    | some ppos =>
      rw [hg] at h
      simp only [Option.some_bind] at h
      cases hi : List.findIdx? (fun n => n == node)
          (List.filter (fun n => n.parent == some pid) lvl) with
      | none => rw [hi] at h; simp at h
      | some idx =>
        rw [hi] at h
        simp only [Option.some_bind, pure, Option.some.injEq] at h
        exact ⟨_, h.symm⟩

theorem keyInv_foldlM_placeChild {Q : String → Prop} {s y : ℚ} {lvl : List Node} :
    ∀ (l : List Node) (ps : Positions), keyInv Q ps → (∀ x ∈ l, Q x.id) →
      ∀ ps', l.foldlM (placeChild s y lvl) ps = some ps' → keyInv Q ps' := by
  intro l
  induction l with
  | nil =>
    intro ps h _ ps' hfold
    simp only [List.foldlM_nil, pure, Option.some.injEq] at hfold
    rw [← hfold]
    exact h
  | cons x t ih =>
    intro ps h hl ps' hfold
    rw [List.foldlM_cons] at hfold
    cases hx : placeChild s y lvl ps x with
    | none =>
      rw [hx] at hfold
      simp only [Option.bind_eq_bind, Option.none_bind] at hfold
      cases hfold
    | some ps1 =>
      rw [hx] at hfold
      simp only [Option.bind_eq_bind, Option.some_bind] at hfold
      rcases placeChild_some hx with ⟨v, rfl⟩
      exact ih _ (keyInv_posSet h (hl x (List.mem_cons_self x t)))
        (fun b hb => hl b (List.mem_cons_of_mem x hb)) ps' hfold

theorem foldlM_placeChild_none {Q : String → Prop} {s y : ℚ} {lvl : List Node}
    {bad : Node} {p : String} (hbadp : bad.parent = some p)
    (hQp : ∀ q, Q q → q ≠ p) :
    ∀ (l : List Node) (ps : Positions), keyInv Q ps → (∀ x ∈ l, Q x.id) →
      bad ∈ l → l.foldlM (placeChild s y lvl) ps = none := by
  intro l
  induction l with
  | nil => intro ps _ _ hbad; cases hbad
  | cons x t ih =>
    intro ps h hl hbad
    rw [List.foldlM_cons]
    rcases List.mem_cons.1 hbad with rfl | hbadt
    · have hnone : placeChild s y lvl ps bad = none := by
        unfold placeChild
        rw [hbadp]
        have hpg : posGet ps p = none :=
          posGet_eq_none_of ps p fun e he => hQp e.1 (h e he)
        simp [hpg]
      rw [hnone]
      rfl
    · cases hx : placeChild s y lvl ps x with
      | none => rfl
      | some ps1 =>
        simp only [Option.bind_eq_bind, Option.some_bind]
        rcases placeChild_some hx with ⟨v, rfl⟩
        exact ih _ (keyInv_posSet h (hl x (List.mem_cons_self x t)))
          (fun b hb => hl b (List.mem_cons_of_mem x hb)) hbadt

theorem layout_root_level1_keyInv (ns : List Node) (ps : Positions)
    (h : layout_root_level1 ns = some ps) :
    keyInv (fun k => ∃ n ∈ ns, n.id = k ∧ (n.level = 0 ∨ n.level = 1)) ps := by
  unfold layout_root_level1 at h
  cases hr : (ns.filter (fun n => n.level == 0)).head? with
  | none =>
    rw [hr] at h
    simp only [Option.bind_eq_bind, Option.none_bind] at h
    cases h
  | some root =>
    rw [hr] at h
    simp only [Option.bind_eq_bind, Option.some_bind, pure, Option.some.injEq] at h
    have hrootmem : root ∈ ns.filter (fun n => n.level == 0) := by
      cases hfl : ns.filter (fun n => n.level == 0) with
      | nil => rw [hfl] at hr; cases hr
      | cons a t =>
        rw [hfl] at hr
        simp only [List.head?_cons, Option.some.injEq] at hr
        rw [← hr]
        exact List.mem_cons_self a t
    have hrootQ : ∃ n ∈ ns, n.id = root.id ∧ (n.level = 0 ∨ n.level = 1) := by
      refine ⟨root, List.mem_of_mem_filter hrootmem, rfl, Or.inl ?_⟩
      have := (List.mem_filter.1 hrootmem).2
      exact beq_iff_eq.mp this
    rw [← h]
    have base : keyInv (fun k => ∃ n ∈ ns, n.id = k ∧ (n.level = 0 ∨ n.level = 1))
        (posSet [] root.id (0, 0)) :=
      keyInv_posSet (fun e he => absurd he (List.not_mem_nil e)) hrootQ
    refine keyInv_foldl_posSet (fun q : ℕ × Node => q.2.id) _ _ _ base ?_
    intro q hq
    have hq2 : q.2 ∈ ns.filter (fun n => n.level == 1) := by
      have := List.mem_map_of_mem Prod.snd hq
      rwa [List.enum_map_snd] at this
    refine ⟨q.2, List.mem_of_mem_filter hq2, rfl, Or.inr ?_⟩
    exact beq_iff_eq.mp (List.mem_filter.1 hq2).2

/-- Claim C1 as amended: a dangling parent id on a node of level 2 or level 3
makes `create_hierarchical_layout` fail (an unhandled `KeyError` on the
positions dictionary, modelled as `none`); a dangling parent on a level-1
node does not (see the counterexample). -/
theorem layout_fails_on_dangling_parent (ns : List Node) (bad : Node) (p : String)
    (hmem : bad ∈ ns) (hlvl : bad.level = 2 ∨ bad.level = 3)
    (hpar : bad.parent = some p) (hdangling : ∀ m ∈ ns, m.id ≠ p) :
    create_hierarchical_layout ns = none := by
  unfold create_hierarchical_layout
  cases hA : layout_root_level1 ns with
  | none => simp
  | some ps1 =>
    simp only [Option.bind_eq_bind, Option.some_bind]
    have hQ1 : keyInv (fun k => ∃ n ∈ ns, n.id = k) ps1 := by
      intro e he
      rcases layout_root_level1_keyInv ns ps1 hA e he with ⟨n, hn, hid, _⟩
      exact ⟨n, hn, hid⟩
    have hQp : ∀ q, (∃ n ∈ ns, n.id = q) → q ≠ p := by
      rintro q ⟨n, hn, rfl⟩
      exact hdangling n hn
    rcases hlvl with h2 | h3
    · have hf2 : (ns.filter (fun n => n.level == 2)).foldlM
          (placeChild (9 / 5) (7 / 2) (ns.filter (fun n => n.level == 2))) ps1 = none :=
        foldlM_placeChild_none hpar hQp _ ps1 hQ1
          (fun x hx => ⟨x, List.mem_of_mem_filter hx, rfl⟩)
          (List.mem_filter.2 ⟨hmem, by simp [h2]⟩)
      rw [hf2]
      rfl
    · cases h2f : (ns.filter (fun n => n.level == 2)).foldlM
          (placeChild (9 / 5) (7 / 2) (ns.filter (fun n => n.level == 2))) ps1 with
      | none => rfl
      | some ps2 =>
        simp only [Option.some_bind]
        have hQ2 : keyInv (fun k => ∃ n ∈ ns, n.id = k) ps2 :=
          keyInv_foldlM_placeChild _ ps1 hQ1
            (fun x hx => ⟨x, List.mem_of_mem_filter hx, rfl⟩) ps2 h2f
        have hf3 : (ns.filter (fun n => n.level == 3)).foldlM
            (placeChild (3 / 2) 3 (ns.filter (fun n => n.level == 3))) ps2 = none :=
          foldlM_placeChild_none hpar hQp _ ps2 hQ2
            (fun x hx => ⟨x, List.mem_of_mem_filter hx, rfl⟩)
            (List.mem_filter.2 ⟨hmem, by simp [h3]⟩)
        rw [hf3]
        rfl

theorem posGet_foldl_posSet_unchanged {α : Type} (key : α → String)
    (F : α → ℚ × ℚ) (k : String) :
    ∀ (l : List α) (ps : Positions), (∀ a ∈ l, key a ≠ k) →
      posGet (l.foldl (fun ps a => posSet ps (key a) (F a)) ps) k = posGet ps k := by
  intro l
  induction l with
  | nil => intro ps _; rfl
  | cons a t ih =>
    intro ps h
    simp only [List.foldl_cons]
    rw [ih _ fun b hb => h b (List.mem_cons_of_mem a hb)]
    exact posGet_posSet_ne ps (key a) k (F a)
      fun hk => h a (List.mem_cons_self a t) hk.symm

theorem posGet_foldl_posSet_mem {α : Type} (key : α → String)
    (F : α → ℚ × ℚ) :
    ∀ (l : List α) (ps : Positions) (p : α), p ∈ l → (l.map key).Nodup →
      posGet (l.foldl (fun ps a => posSet ps (key a) (F a)) ps) (key p) = some (F p) := by
  intro l
  induction l with
  | nil => intro ps p hp; cases hp
  | cons a t ih =>
    intro ps p hp hnd
    simp only [List.map_cons, List.nodup_cons] at hnd
    simp only [List.foldl_cons]
    rcases List.mem_cons.1 hp with rfl | hpt
    · rw [posGet_foldl_posSet_unchanged key F (key p) t _ ?_]
      · exact posGet_posSet_self ps (key p) (F p)
      · intro b hb hkb
        exact hnd.1 (hkb ▸ List.mem_map_of_mem key hb)
    · exact ih _ p hpt hnd.2

theorem foldl_enumFrom_ids_congr (c : ℚ) :
    ∀ (l₁ l₂ : List Node), l₁.map Node.id = l₂.map Node.id →
    ∀ (i : ℕ) (ps : Positions),
      (l₁.enumFrom i).foldl
          (fun ps p => posSet ps p.2.id (c + (p.1 : ℚ) * level1_spacing, -(7 / 2))) ps
        = (l₂.enumFrom i).foldl
          (fun ps p => posSet ps p.2.id (c + (p.1 : ℚ) * level1_spacing, -(7 / 2))) ps := by
  intro l₁
  induction l₁ with
  | nil =>
    intro l₂ h
    cases l₂ with
    | nil => intro i ps; rfl
    | cons b t₂ => simp at h
  | cons a t ih =>
    intro l₂ h
    cases l₂ with
    | nil => simp at h
    | cons b t₂ =>
      simp only [List.map_cons, List.cons.injEq] at h
      intro i ps
      simp only [List.enumFrom_cons, List.foldl_cons]
      rw [h.1]
      exact ih t₂ h.2 (i + 1) _

/-- Claim C9: the level-1 placement never reads the parent field.  First:
replacing the parent field of any level-1 node leaves the whole layout
unchanged.  Second: on any node list holding only levels 0 and 1 (with a
level-0 node present and distinct level-1 ids), the layout succeeds — the
parent ids, dangling or not, are irrelevant — and the i-th level-1 node is
placed purely from its index `i` among the level-1 nodes. -/
theorem level1_placement_ignores_parent :
    (∀ (pre post : List Node) (n : Node) (q : Option String), n.level = 1 →
      create_hierarchical_layout (pre ++ n :: post)
        = create_hierarchical_layout (pre ++ withParent n q :: post)) ∧
    (∀ ns : List Node, ns.filter (fun n => n.level == 0) ≠ [] →
      (∀ m ∈ ns, m.level = 0 ∨ m.level = 1) →
      ((ns.filter (fun n => n.level == 1)).map Node.id).Nodup →
      (create_hierarchical_layout ns).isSome = true ∧
      ∀ (i : ℕ) (hi : i < (ns.filter (fun n => n.level == 1)).length),
        posGet ((create_hierarchical_layout ns).getD [])
            ((ns.filter (fun n => n.level == 1))[i]).id
          = some (-(((ns.filter (fun n => n.level == 1)).length : ℚ) - 1)
              * level1_spacing / 2 + (i : ℚ) * level1_spacing, -(7 / 2))) := by
  constructor
  · intro pre post n q hn
    have hlvl : (withParent n q).level = n.level := rfl
    have hid : (withParent n q).id = n.id := rfl
    have hf0 : (pre ++ n :: post).filter (fun m => m.level == 0)
        = (pre ++ withParent n q :: post).filter (fun m => m.level == 0) := by
      rw [List.filter_append, List.filter_append,
        List.filter_cons_of_neg (by simp [hn]),
        List.filter_cons_of_neg (by simp [hlvl, hn])]
    have hf2 : (pre ++ n :: post).filter (fun m => m.level == 2)
        = (pre ++ withParent n q :: post).filter (fun m => m.level == 2) := by
      rw [List.filter_append, List.filter_append,
        List.filter_cons_of_neg (by simp [hn]),
        List.filter_cons_of_neg (by simp [hlvl, hn])]
    have hf3 : (pre ++ n :: post).filter (fun m => m.level == 3)
        = (pre ++ withParent n q :: post).filter (fun m => m.level == 3) := by
      rw [List.filter_append, List.filter_append,
        List.filter_cons_of_neg (by simp [hn]),
        List.filter_cons_of_neg (by simp [hlvl, hn])]
    have hf1 : ((pre ++ n :: post).filter (fun m => m.level == 1)).map Node.id
        = ((pre ++ withParent n q :: post).filter (fun m => m.level == 1)).map Node.id := by
      rw [List.filter_append, List.filter_append,
        List.filter_cons_of_pos (by simp [hn]),
        List.filter_cons_of_pos (by simp [hlvl, hn]),
        List.map_append, List.map_append, List.map_cons, List.map_cons, hid]
    have hf1len : ((pre ++ n :: post).filter (fun m => m.level == 1)).length
        = ((pre ++ withParent n q :: post).filter (fun m => m.level == 1)).length := by
      have h := congrArg List.length hf1
      simpa [List.length_map] using h
    have hA : layout_root_level1 (pre ++ n :: post)
        = layout_root_level1 (pre ++ withParent n q :: post) := by
      unfold layout_root_level1
      rw [hf0]
      cases hr : ((pre ++ withParent n q :: post).filter
          (fun m => m.level == 0)).head? with
      | none => rfl
      | some root =>
        simp only [Option.bind_eq_bind, Option.some_bind, List.enum]
        rw [hf1len, foldl_enumFrom_ids_congr _ _ _ hf1 0 _]
    unfold create_hierarchical_layout
    rw [hA, hf2, hf3]
  · intro ns h0 hlv hnd
    obtain ⟨r, t, hrt⟩ := List.exists_cons_of_ne_nil h0
    have hf2nil : ns.filter (fun n => n.level == 2) = [] :=
      List.filter_eq_nil_iff.2 (by
        intro a ha
        rcases hlv a ha with h | h <;> simp [h])
    have hf3nil : ns.filter (fun n => n.level == 3) = [] :=
      List.filter_eq_nil_iff.2 (by
        intro a ha
        rcases hlv a ha with h | h <;> simp [h])
    have hmain : create_hierarchical_layout ns
        = some ((ns.filter (fun n => n.level == 1)).enum.foldl
            (fun ps p => posSet ps p.2.id
              (-(((ns.filter (fun n => n.level == 1)).length : ℚ) - 1) * level1_spacing / 2
                + (p.1 : ℚ) * level1_spacing, -(7 / 2)))
            (posSet [] r.id (0, 0))) := by
      unfold create_hierarchical_layout layout_root_level1
      rw [hrt, hf2nil, hf3nil]
      rfl
    refine ⟨by rw [hmain]; rfl, ?_⟩
    intro i hi
    rw [hmain, Option.getD_some]
    have hp : ((i, (ns.filter (fun n => n.level == 1))[i]) : ℕ × Node)
        ∈ (ns.filter (fun n => n.level == 1)).enum := by
      have hi' : i < (ns.filter (fun n => n.level == 1)).enum.length := by
        rw [List.enum_length]; exact hi
      have hmem := List.getElem_mem hi'
      rwa [List.getElem_enum] at hmem
    have hndkey : (((ns.filter (fun n => n.level == 1)).enum).map
        (fun p : ℕ × Node => p.2.id)).Nodup := by
      have hcomp : (fun p : ℕ × Node => p.2.id) = Node.id ∘ Prod.snd := rfl
      rw [hcomp, ← List.map_map, List.enum_map_snd]
      exact hnd
    exact posGet_foldl_posSet_mem (fun p : ℕ × Node => p.2.id)
      (fun p => (-(((ns.filter (fun n => n.level == 1)).length : ℚ) - 1) * level1_spacing / 2
        + (p.1 : ℚ) * level1_spacing, -(7 / 2)))
      ((ns.filter (fun n => n.level == 1)).enum) (posSet [] r.id (0, 0))
      (i, (ns.filter (fun n => n.level == 1))[i]) hp hndkey

theorem filter_level_levelled (k : Int)
    (hk : (k == 0 || k == 1 || k == 2 || k == 3) = true) (ns : List Node) :
    (ns.filter levelled).filter (fun n => n.level == k)
      = ns.filter (fun n => n.level == k) := by
  rw [List.filter_filter]
  apply List.filter_congr
  intro a _
  by_cases ha : (a.level == k) = true
  · have hak : a.level = k := beq_iff_eq.mp ha
    simp [levelled, ha, hak, hk]
  · simp [eq_false_of_ne_true ha]

/-- Claim C10: the layout positions only nodes of levels 0 to 3.  First:
dropping every node of any other level from the input leaves the result of
`create_hierarchical_layout` unchanged (such nodes are silently ignored and
raise nothing).  Second: every key of a successfully returned positions
dictionary is the id of some input node of level 0, 1, 2 or 3. -/
theorem layout_positions_only_levels_zero_to_three :
    (∀ ns : List Node,
      create_hierarchical_layout (ns.filter levelled)
        = create_hierarchical_layout ns) ∧
    (∀ (ns : List Node) (ps : Positions), create_hierarchical_layout ns = some ps →
      ∀ e ∈ ps, ∃ n ∈ ns, n.id = e.1 ∧
        (n.level = 0 ∨ n.level = 1 ∨ n.level = 2 ∨ n.level = 3)) := by
  constructor
  · intro ns
    unfold create_hierarchical_layout layout_root_level1
    rw [filter_level_levelled 0 (by decide) ns, filter_level_levelled 1 (by decide) ns,
      filter_level_levelled 2 (by decide) ns, filter_level_levelled 3 (by decide) ns]
  · intro ns ps hps e he
    unfold create_hierarchical_layout at hps
    cases hA : layout_root_level1 ns with
    | none =>
      rw [hA] at hps
      simp only [Option.bind_eq_bind, Option.none_bind] at hps
      cases hps
    | some ps1 =>
      rw [hA] at hps
      simp only [Option.bind_eq_bind, Option.some_bind] at hps
      have hQ1 : keyInv (fun k => ∃ n ∈ ns, n.id = k ∧
          (n.level = 0 ∨ n.level = 1 ∨ n.level = 2 ∨ n.level = 3)) ps1 := by
        intro f hf
        rcases layout_root_level1_keyInv ns ps1 hA f hf with ⟨n, hn, hid, hl⟩
        exact ⟨n, hn, hid, hl.imp id Or.inl⟩
      cases h2f : (ns.filter (fun n => n.level == 2)).foldlM
          (placeChild (9 / 5) (7 / 2) (ns.filter (fun n => n.level == 2))) ps1 with
      | none =>
        rw [h2f] at hps
        simp only [Option.none_bind] at hps
        cases hps
      | some ps2 =>
        rw [h2f] at hps
        simp only [Option.some_bind] at hps
        have hQ2 : keyInv (fun k => ∃ n ∈ ns, n.id = k ∧
            (n.level = 0 ∨ n.level = 1 ∨ n.level = 2 ∨ n.level = 3)) ps2 := by
          refine keyInv_foldlM_placeChild _ ps1 hQ1 ?_ ps2 h2f
          intro x hx
          refine ⟨x, List.mem_of_mem_filter hx, rfl, ?_⟩
          exact Or.inr (Or.inr (Or.inl (beq_iff_eq.mp (List.mem_filter.1 hx).2)))
        cases h3f : (ns.filter (fun n => n.level == 3)).foldlM
            (placeChild (3 / 2) 3 (ns.filter (fun n => n.level == 3))) ps2 with
        | none =>
          rw [h3f] at hps
          simp only [Option.none_bind] at hps
          cases hps
        | some ps3 =>
          rw [h3f] at hps
          simp only [Option.some_bind, pure, Option.some.injEq] at hps
          have hQ3 : keyInv (fun k => ∃ n ∈ ns, n.id = k ∧
              (n.level = 0 ∨ n.level = 1 ∨ n.level = 2 ∨ n.level = 3)) ps3 := by
            refine keyInv_foldlM_placeChild _ ps2 hQ2 ?_ ps3 h3f
            intro x hx
            refine ⟨x, List.mem_of_mem_filter hx, rfl, ?_⟩
            exact Or.inr (Or.inr (Or.inr (beq_iff_eq.mp (List.mem_filter.1 hx).2)))
          subst hps
          exact hQ3 e he

end ChartScript

namespace ChartScript

/-- Claim C2: on the fixed node list every node receives a position, and for
every pair of nodes, the one with the strictly greater level has the strictly
smaller computed y coordinate. -/
theorem y_strictly_decreases_as_level_increases :
    (∀ n ∈ nodes, (posGet node_positions n.id).isSome = true) ∧
    ∀ n ∈ nodes, ∀ m ∈ nodes, m.level < n.level → yOf n.id < yOf m.id := by
  with_unfolding_all decide

/-- Witness for C2: `specialists/` (level 2) lies strictly below `.claude/`
(level 1). -/
theorem y_strictly_decreases_witness : yOf "specialists" < yOf "claude" :=
  y_strictly_decreases_as_level_increases.2
    ⟨"specialists", "specialists/", 2, "config", some "claude"⟩ (by decide)
    ⟨"claude", ".claude/", 1, "config", some "project"⟩ (by decide)
    (by decide)

/-- Claim C3: for every sibling group of size greater than one on the fixed
node list, the multiset of horizontal offsets from the parent's x coordinate
is closed under negation, and the sum of the siblings' x coordinates equals
the group size times the parent's x coordinate (i.e. the mean equals the
parent's x). -/
theorem sibling_offsets_symmetric_around_parent :
    ∀ n ∈ nodes, n.parent.isSome = true →
      1 < (siblingsOf n (n.parent.getD "")).length →
      ((((siblingsOf n (n.parent.getD "")).map
            (fun m => xOf m.id - xOf (n.parent.getD ""))) : Multiset ℚ).map
          (fun o => -o)
        = ((siblingsOf n (n.parent.getD "")).map
            (fun m => xOf m.id - xOf (n.parent.getD "")))) ∧
      ((siblingsOf n (n.parent.getD "")).map (fun m => xOf m.id)).sum
        = ((siblingsOf n (n.parent.getD "")).length : ℚ) * xOf (n.parent.getD "") := by
  with_unfolding_all decide

/-- Witness for C3: the four level-3 children of `specialists/` form a group
of size 4 whose x coordinates sum to four times the parent's x. -/
theorem sibling_offsets_symmetric_witness :
    ((siblingsOf ⟨"cognitive", "cognitive/", 3, "config", some "specialists"⟩
        "specialists").map (fun m => xOf m.id)).sum
      = ((siblingsOf ⟨"cognitive", "cognitive/", 3, "config", some "specialists"⟩
          "specialists").length : ℚ) * xOf "specialists" :=
  (sibling_offsets_symmetric_around_parent
    ⟨"cognitive", "cognitive/", 3, "config", some "specialists"⟩ (by decide)
    rfl (by with_unfolding_all decide)).2

/-- Counterexample for C4: `.claude/` sits 3.5 below its parent while
`cognitive/` sits only 3.0 below its parent, so the vertical offset between
consecutive levels is not one fixed constant. -/
theorem vertical_step_not_constant :
    (⟨"claude", ".claude/", 1, "config", some "project"⟩ : Node) ∈ nodes ∧
    (⟨"cognitive", "cognitive/", 3, "config", some "specialists"⟩ : Node) ∈ nodes ∧
    yOf "project" - yOf "claude" = 7 / 2 ∧
    yOf "specialists" - yOf "cognitive" = 3 ∧
    yOf "project" - yOf "claude" ≠ yOf "specialists" - yOf "cognitive" := by
  with_unfolding_all decide

/-- Claim C4 as amended: the vertical offset from parent to child is a
per-level constant — 3.5 for children at levels 1 and 2, and 3.0 for
children at level 3. -/
theorem vertical_step_per_level :
    ∀ n ∈ nodes, n.parent.isSome = true →
      yOf (n.parent.getD "") - yOf n.id = if n.level == 3 then 3 else 7 / 2 := by
  with_unfolding_all decide

/-- Witness for C4 (amended): `.claude/` lies exactly 3.5 below its parent. -/
theorem vertical_step_per_level_witness :
    yOf "project" - yOf "claude" = 7 / 2 :=
  vertical_step_per_level
    ⟨"claude", ".claude/", 1, "config", some "project"⟩ (by decide) (by decide)

/-- Claim C5: on the fixed node list, a level-2 or level-3 node whose sibling
group has size exactly one is placed at its parent's x coordinate. -/
theorem singleton_sibling_zero_offset :
    ∀ n ∈ nodes, n.parent.isSome = true → (n.level = 2 ∨ n.level = 3) →
      (siblingsOf n (n.parent.getD "")).length = 1 →
      xOf n.id = xOf (n.parent.getD "") := by
  with_unfolding_all decide

/-- Witness for C5: `specialists/` is the sole level-2 child of `.claude/`
and sits exactly at its x coordinate. -/
theorem singleton_sibling_zero_offset_witness :
    xOf "specialists" = xOf "claude" :=
  singleton_sibling_zero_offset
    ⟨"specialists", "specialists/", 2, "config", some "claude"⟩ (by decide)
    (by decide) (Or.inl rfl) (by with_unfolding_all decide)

/-- Claim C7: on the fixed node list, every node other than the root carries
a parent field that names the id of some node in the list, and that parent's
level is exactly one less than the child's. -/
theorem sample_parents_resolve_one_level_up :
    ∀ n ∈ nodes, n ≠ ⟨"project", "project/", 0, "root", none⟩ →
      ∃ q ∈ nodes, n.parent = some q.id ∧ q.level + 1 = n.level := by
  with_unfolding_all decide

/-- Witness for C7: `.claude/` resolves to the root one level up. -/
theorem sample_parents_resolve_witness :
    ∃ q ∈ nodes,
      (⟨"claude", ".claude/", 1, "config", some "project"⟩ : Node).parent = some q.id ∧
      q.level + 1 = (⟨"claude", ".claude/", 1, "config", some "project"⟩ : Node).level :=
  sample_parents_resolve_one_level_up
    ⟨"claude", ".claude/", 1, "config", some "project"⟩ (by decide) (by decide)

/-- Claim C8: the edge loop succeeds on the fixed data, adds exactly one line
trace per node that carries a parent field, and the i-th trace runs from that
node's parent's computed position to the node's own computed position. -/
theorem one_line_trace_per_parent_child_pair :
    (line_traces nodes node_positions).isSome = true ∧
    edge_traces.length = (nodes.filter (fun n => n.parent.isSome)).length ∧
    edge_traces = (nodes.filter (fun n => n.parent.isSome)).map
      (fun n => ⟨[xOf (n.parent.getD ""), xOf n.id],
                 [yOf (n.parent.getD ""), yOf n.id]⟩) := by
  with_unfolding_all decide

/-- Counterexample for C1: a node list with a level-1 node whose parent id
(`"ghost"`) is absent from the node set, on which the layout nevertheless
completes. -/
theorem layout_completes_despite_dangling_level1_parent :
    (∃ n ∈ dangling_level1, n.parent ≠ none ∧
      ∀ m ∈ dangling_level1, some m.id ≠ n.parent) ∧
    (create_hierarchical_layout dangling_level1).isSome = true := by
  with_unfolding_all decide

end ChartScript

namespace Script

/-- Claim C6: the print loop writes, for every entry of `systems_analysis` in
iteration order, one block consisting of an empty line, exactly one header
line (the entry name upper-cased followed by " ANALYSIS:"), the "Strengths:"
label, one bullet line per strength in list order, and one organization
line. -/
theorem print_analysis_output : print_analysis = expected_output := by
  with_unfolding_all decide

end Script

namespace ChartScript

/-- Witness for C1 (amended): the layout fails on the concrete list whose
level-2 node names the absent parent id `"ghost"`. -/
theorem layout_fails_on_dangling_parent_witness :
    create_hierarchical_layout dangling_level2 = none :=
  layout_fails_on_dangling_parent dangling_level2
    ⟨"specialists", "specialists/", 2, "config", some "ghost"⟩ "ghost"
    (by decide) (Or.inl rfl) rfl (by decide)

/-- Witness for C9: rewriting the level-1 node's parent to the absent id
`"ghost"` leaves the layout unchanged, and the layout on the dangling list
still succeeds. -/
theorem level1_placement_ignores_parent_witness :
    create_hierarchical_layout resolved_level1
      = create_hierarchical_layout dangling_level1 ∧
    (create_hierarchical_layout dangling_level1).isSome = true :=
  ⟨level1_placement_ignores_parent.1 [⟨"project", "project/", 0, "root", none⟩] []
      ⟨"claude", ".claude/", 1, "config", some "project"⟩ (some "ghost") rfl,
   (level1_placement_ignores_parent.2 dangling_level1 (by decide) (by decide)
      (by decide)).1⟩

/-- Witness for C10: dropping the level-7 node changes nothing, and on the
concrete list the only key of the returned dictionary is the root's id. -/
theorem layout_positions_only_levels_witness :
    create_hierarchical_layout (out_of_range_example.filter levelled)
      = create_hierarchical_layout out_of_range_example ∧
    (∃ n ∈ out_of_range_example, n.id = ("project", (0 : ℚ), (0 : ℚ)).1 ∧
      (n.level = 0 ∨ n.level = 1 ∨ n.level = 2 ∨ n.level = 3)) :=
  ⟨layout_positions_only_levels_zero_to_three.1 out_of_range_example,
   layout_positions_only_levels_zero_to_three.2 out_of_range_example
     [("project", 0, 0)] (by with_unfolding_all decide) ("project", 0, 0) (by decide)⟩

end ChartScript
